import Mathlib

/-!
Verification of the scraper-app core against its specification.

The definitions below are a shallow embedding of the repository's code:

* `extractLinks` embeds the link extractor of
  src/server/services/scraperService.ts (lines 264-295);
* `workerTransaction` / `workerRun` / `runJob` embed the BullMQ worker
  callback of the same file (lines 116-200) together with the retry
  configuration of `addScrapingJob` (lines 220-235);
* `createPage` / `retryPage` embed the POST / and POST /:id/retry handlers of
  src/server/routes/pages.ts;
* `checkForCompletedJobs` / `runPolls` embed the client notification
  reconciliation of the Dashboard component.

JavaScript string primitives and the WHATWG URL builtin are modelled by the
`str...` / `Url` definitions; each carries a doc comment naming what it models.
-/

namespace ScraperApp

/-- Models JavaScript String.prototype.startsWith: character-wise prefix test. -/
def strStartsWith (s pre : String) : Bool :=
  pre.data.isPrefixOf s.data

/-- ASCII whitespace recognised by String.prototype.trim. -/
def isWs (c : Char) : Bool :=
  c == ' ' || c == '\t' || c == '\n' || c == '\r'

/-- Models JavaScript String.prototype.trim. -/
def strTrim (s : String) : String :=
  String.mk (((s.data.dropWhile isWs).reverse.dropWhile isWs).reverse)

/-- A parsed http(s) URL: the components of the WHATWG URL objects the scraper
builds with the URL builtin. `origin` and `hrefStr` below give the
serialisations the source code reads (`url.origin`, `url.href`). -/
structure Url where
  scheme : String
  host : String
  path : String
deriving DecidableEq, Repr

/-- Models `url.origin` of the URL builtin for an http(s) URL. -/
def origin (u : Url) : String :=
  u.scheme ++ "://" ++ u.host

/-- Models `url.href` of the URL builtin for an http(s) URL
(query and fragment are not exercised by the claims). -/
def hrefStr (u : Url) : String :=
  origin u ++ u.path

/-- Models parsing an absolute http(s) URL string with the URL builtin
(`new URL(s)`): fails unless the string has an http(s) scheme and a
nonempty host; a missing path serialises as "/". -/
def parseUrl (s : String) : Option Url :=
  let parseRest (scheme : String) (rest : List Char) : Option Url :=
    let host := rest.takeWhile (fun c => c ≠ '/')
    let path := rest.dropWhile (fun c => c ≠ '/')
    if host.isEmpty then none
    else some { scheme := scheme, host := String.mk host,
                path := if path.isEmpty then "/" else String.mk path }
  if strStartsWith s "http://" then parseRest "http" (s.data.drop 7)
  else if strStartsWith s "https://" then parseRest "https" (s.data.drop 8)
  else none

/-- The directory prefix of a path: everything up to and including the final
slash. Used to resolve path-relative references the way the URL builtin does. -/
def dirOf (p : String) : String :=
  String.mk ((p.data.reverse.dropWhile (fun c => c ≠ '/')).reverse)

/-- Models `new URL(href, base)` of the URL builtin, restricted to the
reference forms the scraper's claims exercise: absolute http(s) URLs,
root-relative paths, and path-relative references. A string that looks
absolute but has no host fails to parse, as in the builtin. -/
def resolveUrl (href : String) (base : Url) : Option Url :=
  match parseUrl href with
  | some u => some u
  | none =>
    if strStartsWith href "http://" || strStartsWith href "https://" then none
    else if strStartsWith href "/" then some { base with path := href }
    else some { base with path := dirOf base.path ++ href }

/-- Models `$element.attr('title') || undefined`: an empty attribute value is
collapsed to undefined. -/
def jsTitle : Option String → Option String
  | none => none
  | some t => if t = "" then none else some t

/-- One `a[href]` element of the fetched document, in document order: the raw
href attribute, the element's text content, and its title attribute when
present. Anchors without an href attribute are not selected by the
`a[href]` query and so do not appear in the input list. -/
structure Anchor where
  href : String
  text : String
  title : Option String
deriving DecidableEq, Repr

/-- The ScrapedLink record pushed by extractLinks
(src/server/services/scraperService.ts:286-291). -/
structure ScrapedLink where
  href : String
  text : String
  isExternal : Bool
  title : Option String
deriving DecidableEq, Repr

/-- The externality test of src/server/services/scraperService.ts:284:
`!absoluteUrl.startsWith(new URL(baseUrl).origin)`. -/
def isExternalOf (absoluteUrl : String) (base : Url) : Bool :=
  !(strStartsWith absoluteUrl (origin base))

/-- The `$('a[href]').each` loop of extractLinks
(src/server/services/scraperService.ts:268-292), with the imperative
`links.push` accumulator made explicit. -/
def extractLinksGo (base : Url) : List Anchor → List ScrapedLink → List ScrapedLink
  | [], links => links
  | a :: rest, links =>
    let href := a.href
    let linkText := strTrim a.text
    if href = "" || strStartsWith href "javascript:" || href = "#" then
      extractLinksGo base rest links
    else
      match resolveUrl href base with
      | none => extractLinksGo base rest links
      | some u =>
        let absoluteUrl := hrefStr u
        extractLinksGo base rest (links ++
          [{ href := absoluteUrl,
             text := if linkText = "" then "Link" else linkText,
             isExternal := isExternalOf absoluteUrl base,
             title := jsTitle a.title }])

/-- extractLinks (src/server/services/scraperService.ts:264-295). The base URL
argument is the already-parsed page URL (the callers validate it with
validateUrl before it reaches the extractor). -/
def extractLinks (anchors : List Anchor) (base : Url) : List ScrapedLink :=
  extractLinksGo base anchors []

/-- The spec's description of the extractor, one anchor at a time: skip an
empty href, a javascript: pseudo-URL, the fragment-only reference "#", or an
href that fails to resolve; otherwise emit one record with the resolved
absolute URL and the externality flag. -/
def emittedLink (base : Url) (a : Anchor) : Option ScrapedLink :=
  let linkText := strTrim a.text
  if a.href = "" || strStartsWith a.href "javascript:" || a.href = "#" then none
  else
    match resolveUrl a.href base with
    | none => none
    | some u =>
      some { href := hrefStr u,
             text := if linkText = "" then "Link" else linkText,
             isExternal := isExternalOf (hrefStr u) base,
             title := jsTitle a.title }

/-- The Page status enum of the Prisma schema. -/
inductive PageStatus
  | pending
  | processing
  | completed
  | failed
deriving DecidableEq, Repr

/-- A row of the pages table (the fields the core reads and writes). -/
structure PageRec where
  id : Nat
  url : String
  title : Option String
  status : PageStatus
  linkCount : Nat
  userId : Nat
deriving DecidableEq, Repr

/-- A row of the links table (the fields created by the worker). -/
structure LinkRec where
  url : String
  name : String
  isExternal : Bool
  pageId : Nat
deriving DecidableEq, Repr

/-- The Page/Link store: the database state the routes and the worker read
and write. -/
structure Store where
  pages : List PageRec
  links : List LinkRec
deriving DecidableEq, Repr

/-- prisma.page.findUnique with a where-id filter. -/
def findUnique (ps : List PageRec) (pid : Nat) : Option PageRec :=
  ps.find? (fun p => p.id == pid)

/-- prisma.page.update with a where-id filter: rewrites the matching row,
leaves every other row unchanged. -/
def updateWhere (ps : List PageRec) (pid : Nat) (f : PageRec → PageRec) : List PageRec :=
  ps.map (fun p => if p.id = pid then f p else p)

/-- The Link rows stored for one page. -/
def linksOf (ls : List LinkRec) (pid : Nat) : List LinkRec :=
  ls.filter (fun l => l.pageId == pid)

/-- The committed status of a page as a concurrent reader sees it. -/
def pageStatus (s : Store) (pid : Nat) : Option PageStatus :=
  (findUnique s.pages pid).map (fun p => p.status)

/-- The scraped data the worker consumes: the fields of the scrapePage result
that the transaction persists (title and extracted links). -/
structure ScrapedData where
  title : String
  links : List ScrapedLink
deriving DecidableEq, Repr

/-- The LinkRec built for createMany
(src/server/services/scraperService.ts:151-156). -/
def toLinkRec (pid : Nat) (l : ScrapedLink) : LinkRec :=
  { url := l.href, name := l.text, isExternal := l.isExternal, pageId := pid }

/-- The prisma.$transaction callback of the worker
(src/server/services/scraperService.ts:121-165). A `none` result is a thrown
error: the transaction aborts and none of its writes land. The fetch argument
is the outcome of `await scrapePage(url)`: `none` when the fetch or the
extraction threw. -/
def workerTransaction (s : Store) (pid : Nat) (fetch : Option ScrapedData) : Option Store :=
  match findUnique s.pages pid with
  | none => none
  | some _ =>
    let s1 : Store :=
      { s with pages := updateWhere s.pages pid (fun p => { p with status := .processing }) }
    match fetch with
    | none => none
    | some d =>
      let s2 : Store :=
        { s1 with pages := updateWhere s1.pages pid (fun p =>
            { p with title := some d.title, status := .completed,
                     linkCount := d.links.length }) }
      let linkData := d.links.map (toLinkRec pid)
      let s3 : Store :=
        if linkData.length > 0 then { s2 with links := s2.links ++ linkData } else s2
      some s3

/-- The combined effect on the page row of the transaction's two updates (set
PROCESSING, then set title, COMPLETED and linkCount): the second update
overwrites the status. -/
def completedUpdate (d : ScrapedData) (p : PageRec) : PageRec :=
  { p with title := some d.title, status := .completed, linkCount := d.links.length }

/-- The catch handler's page update
(src/server/services/scraperService.ts:179-185). -/
def failUpdate (p : PageRec) : PageRec :=
  { p with status := .failed, title := some "Scraping Failed" }

/-- The catch handler's write, which runs outside the aborted transaction. -/
def failStore (s : Store) (pid : Nat) : Store :=
  { s with pages := updateWhere s.pages pid failUpdate }

/-- One run of the worker callback (src/server/services/scraperService.ts:
116-194): run the transaction; on a thrown error, re-check the page and mark
it FAILED when it still exists, then rethrow (the Bool is `true` when the
error was rethrown, which makes BullMQ count the attempt as failed). -/
def workerRun (s : Store) (pid : Nat) (fetch : Option ScrapedData) : Store × Bool :=
  match workerTransaction s pid fetch with
  | some s' => (s', false)
  | none =>
    match findUnique s.pages pid with
    | some _ => (failStore s pid, true)
    | none => (s, true)

/-- The `attempts: 3` option of addScrapingJob
(src/server/services/scraperService.ts:227). -/
def jobAttempts : Nat := 3

/-- BullMQ's attempt loop for one job: run the worker; while the attempt
rethrows and budget remains, deliver the job again. Returns the final store
and the number of attempts made. The fetches argument gives the scrape
outcome of each attempt. -/
def runJobAux (fetches : Nat → Option ScrapedData) (pid : Nat) :
    Store → Nat → Nat → Store × Nat
  | s, made, 0 => (s, made)
  | s, made, budget + 1 =>
    let r := workerRun s pid (fetches made)
    if r.2 then runJobAux fetches pid r.1 (made + 1) budget
    else (r.1, made + 1)

/-- Processing of one enqueued job under the configured retry budget. -/
def runJob (s : Store) (pid : Nat) (fetches : Nat → Option ScrapedData) : Store × Nat :=
  runJobAux fetches pid s 0 jobAttempts

/-- The sequence of committed stores a concurrent reader can observe during
one worker run, starting from the pre-state. Every write inside
prisma.$transaction becomes visible only at commit, so a successful run
exposes exactly the pre-state and the fully committed post-state; a failed
run with a surviving page additionally commits the catch handler's separate
FAILED update; a run on a missing page commits nothing. -/
def observableStates (s : Store) (pid : Nat) (fetch : Option ScrapedData) : List Store :=
  match workerTransaction s pid fetch with
  | some s' => [s, s']
  | none =>
    match findUnique s.pages pid with
    | some _ => [s, failStore s pid]
    | none => [s]

/-- The durability invariant of the store: page ids are unique, a COMPLETED
page's linkCount equals the number of Link rows stored for it, and a page
that is not COMPLETED has no Link rows. -/
def goodStore (s : Store) : Prop :=
  (s.pages.map (fun p => p.id)).Nodup ∧
  ∀ p, p ∈ s.pages →
    (p.status = .completed → p.linkCount = (linksOf s.links p.id).length) ∧
    (p.status ≠ .completed → linksOf s.links p.id = [])

instance (s : Store) : Decidable (goodStore s) := by
  unfold goodStore; infer_instance

/-- The payload of an enqueued scrape job
(src/server/services/scraperService.ts:221-226). -/
structure Job where
  pageId : Nat
  url : String
  userId : Nat
deriving DecidableEq, Repr

/-- Result of the POST /api/pages handler: created, rejected by the
validateUrl middleware (400 with a validation-errors body), or rejected as a
duplicate URL. -/
inductive CreateResult
  | created (pid : Nat)
  | invalidUrl
  | duplicate
deriving DecidableEq, Repr

/-- The validateUrl middleware of POST /api/pages
(src/server/routes/pages.ts:11-17): body('url').isURL() - modelled as
parsing as an absolute http(s) URL with a nonempty host - chained with the
case-sensitive regex match on the http(s) scheme prefix. A request failing
either check is answered 400 before the handler body runs. -/
def validateUrlReq (url : String) : Bool :=
  (parseUrl url).isSome &&
    (strStartsWith url "http://" || strStartsWith url "https://")

/-- The POST /api/pages handler (src/server/routes/pages.ts:132-181),
including its validateUrl middleware: a url failing validation is answered
400 before the duplicate check; otherwise reject when a page with exactly
this url already exists for this user (prisma findFirst with an equality
filter, which on the SQLite store compares strings exactly); otherwise
create the page with status PENDING and enqueue a scrape job. The fresh id
is the one the database assigns. -/
def createPage (s : Store) (jobs : List Job) (userId : Nat) (url : String) (newId : Nat) :
    Store × List Job × CreateResult :=
  if !validateUrlReq url then (s, jobs, .invalidUrl)
  else match s.pages.find? (fun p => p.url == url && p.userId == userId) with
  | some _ => (s, jobs, .duplicate)
  | none =>
    let page : PageRec :=
      { id := newId, url := url, title := none, status := .pending,
        linkCount := 0, userId := userId }
    ({ s with pages := s.pages ++ [page] },
     jobs ++ [{ pageId := newId, url := url, userId := userId }],
     .created newId)

/-- Result of the POST /api/pages/:id/retry handler. -/
inductive RetryResult
  | ok
  | notFound
  | onlyFailed
deriving DecidableEq, Repr

/-- The POST /api/pages/:id/retry handler (src/server/routes/pages.ts:
213-248): 404 when the page does not exist for this user; the
"Only failed pages can be retried" error when its status is not FAILED;
otherwise reset the status to PENDING and enqueue a scrape job. -/
def retryPage (s : Store) (jobs : List Job) (userId pid : Nat) :
    Store × List Job × RetryResult :=
  match s.pages.find? (fun p => p.id == pid && p.userId == userId) with
  | none => (s, jobs, .notFound)
  | some page =>
    if page.status ≠ .failed then (s, jobs, .onlyFailed)
    else
      ({ s with pages := updateWhere s.pages pid (fun p => { p with status := .pending }) },
       jobs ++ [{ pageId := page.id, url := page.url, userId := userId }],
       .ok)

/-- A page row as the Dashboard component holds it: a server page merged into
the list, or a provisional temporary entry. -/
structure ViewPage where
  id : Nat
  url : String
  title : Option String
  status : PageStatus
  linkCount : Nat
  isTemporary : Bool
deriving DecidableEq, Repr

/-- The kind of toast the Dashboard fires. -/
inductive NotifKind
  | success
  | failure
deriving DecidableEq, Repr

/-- One toast fired by checkForCompletedJobs. -/
structure Notif where
  pageId : Nat
  kind : NotifKind
deriving DecidableEq, Repr

/-- The checkForCompletedJobs pass of the Dashboard component: walk the page
list in order; skip temporary records; fire a success toast for a COMPLETED
page with linkCount > 0 whose (id, status) key is not yet in the notified
set, and a failure toast for a FAILED page whose key is not yet in the set;
record each fired key in the set (the set is persisted to localStorage after
every addition and reloaded from localStorage on mount, so it survives a
full client reload). The JavaScript key is the string
id-status; (id, status) pairs model it injectively. Returns the updated
notified set and the toasts fired by this pass, in order. -/
def checkForCompletedJobs :
    List (Nat × PageStatus) → List ViewPage → List (Nat × PageStatus) × List Notif
  | notified, [] => (notified, [])
  | notified, p :: rest =>
    if p.isTemporary then checkForCompletedJobs notified rest
    else if p.status = .completed ∧ 0 < p.linkCount ∧ (p.id, p.status) ∉ notified then
      let r := checkForCompletedJobs (notified ++ [(p.id, p.status)]) rest
      (r.1, { pageId := p.id, kind := .success } :: r.2)
    else if p.status = .failed ∧ (p.id, p.status) ∉ notified then
      let r := checkForCompletedJobs (notified ++ [(p.id, p.status)]) rest
      (r.1, { pageId := p.id, kind := .failure } :: r.2)
    else checkForCompletedJobs notified rest

/-- A sequence of polls: each poll delivers a page list, runs one
checkForCompletedJobs pass against the persisted notified set, and persists
the updated set. Because the set lives in localStorage, the same threading
models polls separated by a full client reload. Returns the final persisted
set and all toasts fired, in order. -/
def runPolls :
    List (Nat × PageStatus) → List (List ViewPage) → List (Nat × PageStatus) × List Notif
  | notified, [] => (notified, [])
  | notified, ps :: rest =>
    let r := checkForCompletedJobs notified ps
    let r' := runPolls r.1 rest
    (r'.1, r.2 ++ r'.2)

/-- Number of success toasts fired for a page. -/
def countSucc (out : List Notif) (pid : Nat) : Nat :=
  (out.filter (fun n => n.pageId == pid && n.kind == NotifKind.success)).length

/-- Number of failure toasts fired for a page. -/
def countFail (out : List Notif) (pid : Nat) : Nat :=
  (out.filter (fun n => n.pageId == pid && n.kind == NotifKind.failure)).length

/-! Concrete fixtures used by the witnesses and counterexamples. -/

/-- The spec's round-trip fixture: two absolute anchors, one relative anchor,
one javascript: anchor and one fragment-only anchor, against an origin of
https://fx.test. -/
def fixtureBase : Url := { scheme := "https", host := "fx.test", path := "/" }

/-- The anchors of the round-trip fixture, in document order. -/
def fixtureAnchors : List Anchor :=
  [ { href := "https://fx.test/a", text := "A", title := none },
    { href := "https://ext.test/b", text := "B", title := none },
    { href := "rel.html", text := "R", title := none },
    { href := "javascript:void(0)", text := "J", title := none },
    { href := "#", text := "F", title := none } ]

/-- A base URL whose origin is a proper string prefix of another origin. -/
def prefixBase : Url := { scheme := "http", host := "a.co", path := "/" }

/-- The cross-origin URL http://a.com/x, whose serialisation extends the
string http://a.co. -/
def prefixUrl : Url := { scheme := "http", host := "a.com", path := "/x" }

/-- A store holding one PENDING page with no links. -/
def storePending : Store :=
  { pages := [{ id := 1, url := "http://e.co", title := none, status := .pending,
                linkCount := 0, userId := 7 }],
    links := [] }

/-- A store holding one FAILED page with no links. -/
def storeFailed : Store :=
  { pages := [{ id := 1, url := "http://e.co", title := none, status := .failed,
                linkCount := 0, userId := 7 }],
    links := [] }

/-- The store with no pages and no links. -/
def emptyStore : Store := { pages := [], links := [] }

/-- A job whose every attempt fails to fetch. -/
def noFetch : Nat → Option ScrapedData := fun _ => none

/-- A successful scrape of one link. -/
def dataOneLink : ScrapedData :=
  { title := "T", links := [{ href := "http://e.co/a", text := "A",
                              isExternal := false, title := none }] }

/-- The committed store after one successful run of the scrape job for
page 1 starting from storePending: page COMPLETED with linkCount 1 and one
stored Link row. -/
def storeAfterFirstRun : Store := (workerRun storePending 1 (some dataOneLink)).1

/-- A non-temporary COMPLETED view page with zero links. -/
def viewCompletedZero : ViewPage :=
  { id := 1, url := "http://e.co", title := some "T", status := .completed,
    linkCount := 0, isTemporary := false }

/-- A non-temporary COMPLETED view page with three links. -/
def viewCompletedThree : ViewPage :=
  { id := 1, url := "http://e.co", title := some "T", status := .completed,
    linkCount := 3, isTemporary := false }

/-- A non-temporary FAILED view page with zero links. -/
def viewFailed : ViewPage :=
  { id := 2, url := "http://f.co", title := none, status := .failed,
    linkCount := 0, isTemporary := false }

/-! ## Helper lemmas about the store primitives -/

theorem updateWhere_map_id (ps : List PageRec) (pid : Nat) (f : PageRec → PageRec)
    (hf : ∀ p, (f p).id = p.id) :
    (updateWhere ps pid f).map (fun p => p.id) = ps.map (fun p => p.id) := by
  induction ps with
  | nil => rfl
  | cons p ps ih =>
    simp only [updateWhere, List.map_cons] at ih ⊢
    by_cases h : p.id = pid
    · simp [h, hf p, ih]
    · simp [h, ih]

theorem findUnique_updateWhere (ps : List PageRec) (pid : Nat) (f : PageRec → PageRec)
    (hf : ∀ p, (f p).id = p.id) :
    findUnique (updateWhere ps pid f) pid = (findUnique ps pid).map f := by
  induction ps with
  | nil => rfl
  | cons p ps ih =>
    simp only [updateWhere, findUnique, List.map_cons] at ih ⊢
    by_cases h : p.id = pid
    · rw [List.find?_cons_of_pos, List.find?_cons_of_pos] <;> simp [h, hf p]
    · rw [List.find?_cons_of_neg, List.find?_cons_of_neg]
      · exact ih
      · simp [h]
      · simp [h]

theorem mem_updateWhere {q : PageRec} {ps : List PageRec} {pid : Nat} {f : PageRec → PageRec}
    (h : q ∈ updateWhere ps pid f) :
    ∃ p₀, p₀ ∈ ps ∧ ((¬p₀.id = pid ∧ q = p₀) ∨ (p₀.id = pid ∧ q = f p₀)) := by
  simp only [updateWhere] at h
  rcases List.mem_map.mp h with ⟨p₀, hp₀, he⟩
  refine ⟨p₀, hp₀, ?_⟩
  by_cases hid : p₀.id = pid
  · simp only [hid, if_true] at he
    exact Or.inr ⟨hid, he.symm⟩
  · simp only [hid, if_false] at he
    exact Or.inl ⟨hid, he.symm⟩

theorem updateWhere_comp (ps : List PageRec) (pid : Nat) (f g : PageRec → PageRec)
    (hf : ∀ p, (f p).id = p.id) :
    updateWhere (updateWhere ps pid f) pid g = updateWhere ps pid (fun p => g (f p)) := by
  induction ps with
  | nil => rfl
  | cons p ps ih =>
    simp only [updateWhere, List.map_cons] at ih ⊢
    by_cases h : p.id = pid
    · simp [h, hf p, ih]
    · simp [h, ih]

theorem findUnique_mem {ps : List PageRec} {pid : Nat} {p : PageRec}
    (h : findUnique ps pid = some p) : p ∈ ps ∧ p.id = pid := by
  simp only [findUnique] at h
  refine ⟨List.mem_of_find?_eq_some h, ?_⟩
  have := List.find?_some h
  simpa using this

theorem findUnique_unique {ps : List PageRec} {pid : Nat} {p q : PageRec}
    (hnd : (ps.map (fun p => p.id)).Nodup)
    (hq : q ∈ ps) (hqid : q.id = pid) (hp : findUnique ps pid = some p) : q = p := by
  induction ps with
  | nil => cases hq
  | cons a as ih =>
    simp only [List.map_cons, List.nodup_cons] at hnd
    simp only [findUnique] at hp ih
    rcases List.mem_cons.mp hq with h | h
    · subst h
      rw [List.find?_cons_of_pos _ (by simp [hqid])] at hp
      exact Option.some_inj.mp hp
    · by_cases ha : a.id = pid
      · exact absurd (List.mem_map.mpr ⟨q, h, hqid.trans ha.symm⟩) hnd.1
      · rw [List.find?_cons_of_neg _ (by simp [ha])] at hp
        exact ih hnd.2 h hp

theorem linksOf_append (l₁ l₂ : List LinkRec) (pid : Nat) :
    linksOf (l₁ ++ l₂) pid = linksOf l₁ pid ++ linksOf l₂ pid := by
  simp [linksOf, List.filter_append]

theorem linksOf_map_self (xs : List ScrapedLink) (pid : Nat) :
    linksOf (xs.map (toLinkRec pid)) pid = xs.map (toLinkRec pid) := by
  apply List.filter_eq_self.mpr
  intro a ha
  rcases List.mem_map.mp ha with ⟨x, _, rfl⟩
  simp [toLinkRec]

theorem linksOf_map_ne {qid pid : Nat} (xs : List ScrapedLink) (h : qid ≠ pid) :
    linksOf (xs.map (toLinkRec pid)) qid = [] := by
  apply List.filter_eq_nil_iff.mpr
  intro a ha
  rcases List.mem_map.mp ha with ⟨x, _, rfl⟩
  simp [toLinkRec, h.symm]

theorem workerTransaction_not_found {s : Store} {pid : Nat} (fetch : Option ScrapedData)
    (h : findUnique s.pages pid = none) : workerTransaction s pid fetch = none := by
  simp [workerTransaction, h]

theorem workerTransaction_fetch_failed {s : Store} {pid : Nat} {p : PageRec}
    (h : findUnique s.pages pid = some p) : workerTransaction s pid none = none := by
  simp [workerTransaction, h]

theorem workerTransaction_success {s : Store} {pid : Nat} {p : PageRec} (d : ScrapedData)
    (h : findUnique s.pages pid = some p) :
    workerTransaction s pid (some d) =
      some { pages := updateWhere s.pages pid (completedUpdate d),
             links := s.links ++ d.links.map (toLinkRec pid) } := by
  simp only [workerTransaction, h]
  rw [updateWhere_comp s.pages pid (fun p => { p with status := PageStatus.processing })
        (fun p => { p with title := some d.title, status := PageStatus.completed,
                           linkCount := d.links.length })
        (fun p => rfl)]
  by_cases hl : (d.links.map (toLinkRec pid)).length > 0
  · simp only [hl, if_true]
    rfl
  · simp only [hl, if_false]
    have hnil : d.links.map (toLinkRec pid) = [] :=
      List.length_eq_zero.mp (Nat.eq_zero_of_not_pos hl)
    rw [hnil, List.append_nil]
    rfl

/-! ## Claim theorems for the Scrape Executor -/

/-- C1 counterexample: the invariant of the claim is not unconditional. The
worker never purges old Link rows, and it has no status guard, so a
redelivered (at-least-once) or duplicate job attempt that runs against an
already-COMPLETED page - e.g. a BullMQ redelivery racing a user retry -
appends its links to the existing rows while setting linkCount to the new
extraction count alone. Concretely: after one successful run of the job for
the PENDING page (a COMPLETED page with linkCount 1 and one Link row,
satisfying the invariant), a second successful run of the same job commits
an observable post-state that is COMPLETED with linkCount 1 but two stored
Link rows - COMPLETED with linkCount different from the number of Link
rows, falsifying the claim. -/
theorem scraperWorker_rerun_accumulates_cex :
    goodStore storeAfterFirstRun ∧
    (workerRun storeAfterFirstRun 1 (some dataOneLink)).2 = false ∧
    findUnique (workerRun storeAfterFirstRun 1 (some dataOneLink)).1.pages 1 =
      some { id := 1, url := "http://e.co", title := some "T",
             status := .completed, linkCount := 1, userId := 7 } ∧
    (linksOf (workerRun storeAfterFirstRun 1 (some dataOneLink)).1.links 1).length = 2 ∧
    ¬goodStore (workerRun storeAfterFirstRun 1 (some dataOneLink)).1 := by
  decide

/-- C1 amended: for every scrape job attempt that starts with the target page
not already COMPLETED (the situation for a first delivery of a fresh PENDING
page and for a user retry of a FAILED page), the success commit is one
atomic durability boundary and the invariant is preserved: in the observable
post-state a COMPLETED page's linkCount equals the number of Link rows
stored for it and links are never present without the COMPLETED status; on
the success path the committed state has the scraped title, status
COMPLETED, linkCount equal to the number of extracted links, and all
extracted Link rows, all landing in the same committed store. A re-run
against an already-COMPLETED page violates the invariant because old links
are never purged (see the counterexample). -/
theorem scraperWorker_atomic (s : Store) (pid : Nat) (fetch : Option ScrapedData)
    (hg : goodStore s) (hnc : pageStatus s pid ≠ some .completed) :
    goodStore (workerRun s pid fetch).1 ∧
    (∀ d p, fetch = some d → findUnique s.pages pid = some p →
      (workerRun s pid fetch).2 = false ∧
      ∃ q, findUnique (workerRun s pid fetch).1.pages pid = some q ∧
        q.status = .completed ∧ q.title = some d.title ∧
        q.linkCount = d.links.length ∧
        (linksOf (workerRun s pid fetch).1.links pid).length = d.links.length) := by
  rcases hg with ⟨hnd, hinv⟩
  cases hfind : findUnique s.pages pid with
  | none =>
    have hrun : workerRun s pid fetch = (s, true) := by
      simp [workerRun, workerTransaction_not_found fetch hfind, hfind]
    refine ⟨by rw [hrun]; exact ⟨hnd, hinv⟩, ?_⟩
    intro d p _ hp
    simp [hfind] at hp
  | some p =>
    have hpmem := findUnique_mem hfind
    have hstat : p.status ≠ .completed := by
      intro hc
      exact hnc (by simp [pageStatus, hfind, hc])
    have hlinksp : linksOf s.links p.id = [] := (hinv p hpmem.1).2 hstat
    have hlinkspid : linksOf s.links pid = [] := by rw [← hpmem.2]; exact hlinksp
    cases fetch with
    | none =>
      have hrun : workerRun s pid none = (failStore s pid, true) := by
        simp [workerRun, workerTransaction_fetch_failed hfind, hfind]
      refine ⟨?_, ?_⟩
      · rw [hrun]
        refine ⟨?_, ?_⟩
        · show ((updateWhere s.pages pid failUpdate).map _).Nodup
          rw [updateWhere_map_id s.pages pid failUpdate (fun _ => rfl)]
          exact hnd
        · intro q hq
          rcases mem_updateWhere hq with ⟨p₀, hp₀, hcase⟩
          rcases hcase with ⟨hid, heq⟩ | ⟨hid, heq⟩
          · subst heq
            exact hinv q hp₀
          · subst heq
            have heqp : p₀ = p := findUnique_unique hnd hp₀ hid hfind
            refine ⟨fun hcomp => ?_, fun _ => ?_⟩
            · simp [failUpdate] at hcomp
            · show linksOf s.links (failUpdate p₀).id = []
              rw [heqp]
              exact hlinksp
      · intro d p' hd _
        cases hd
    | some d =>
      have htx := workerTransaction_success d hfind
      have hrun : workerRun s pid (some d) =
          ({ pages := updateWhere s.pages pid (completedUpdate d),
             links := s.links ++ d.links.map (toLinkRec pid) }, false) := by
        simp [workerRun, htx]
      have hlpid : linksOf (s.links ++ d.links.map (toLinkRec pid)) pid =
          d.links.map (toLinkRec pid) := by
        rw [linksOf_append, hlinkspid, List.nil_append, linksOf_map_self]
      refine ⟨?_, ?_⟩
      · rw [hrun]
        refine ⟨?_, ?_⟩
        · show ((updateWhere s.pages pid (completedUpdate d)).map _).Nodup
          rw [updateWhere_map_id s.pages pid (completedUpdate d) (fun _ => rfl)]
          exact hnd
        · intro q hq
          rcases mem_updateWhere hq with ⟨p₀, hp₀, hcase⟩
          rcases hcase with ⟨hid, heq⟩ | ⟨hid, heq⟩
          · subst heq
            have hl : linksOf (s.links ++ d.links.map (toLinkRec pid)) q.id =
                linksOf s.links q.id := by
              rw [linksOf_append, linksOf_map_ne _ hid, List.append_nil]
            refine ⟨fun hc => ?_, fun hc => ?_⟩
            · show q.linkCount =
                (linksOf (s.links ++ d.links.map (toLinkRec pid)) q.id).length
              rw [hl]
              exact (hinv q hp₀).1 hc
            · show linksOf (s.links ++ d.links.map (toLinkRec pid)) q.id = []
              rw [hl]
              exact (hinv q hp₀).2 hc
          · subst heq
            refine ⟨fun _ => ?_, fun hc => absurd rfl hc⟩
            show d.links.length =
              (linksOf (s.links ++ d.links.map (toLinkRec pid))
                (completedUpdate d p₀).id).length
            have hcid : (completedUpdate d p₀).id = pid := hid
            rw [hcid, hlpid, List.length_map]
      · intro d' p' hd hp
        have hd' : d' = d := (Option.some_inj.mp hd).symm
        have hp' : p' = p := (Option.some_inj.mp hp).symm
        subst hd'
        subst hp'
        refine ⟨by rw [hrun], ?_⟩
        refine ⟨completedUpdate d' p', ?_, rfl, rfl, rfl, ?_⟩
        · rw [hrun]
          show findUnique (updateWhere s.pages pid (completedUpdate d')) pid = _
          rw [findUnique_updateWhere s.pages pid (completedUpdate d') (fun _ => rfl), hfind]
          rfl
        · rw [hrun]
          show (linksOf (s.links ++ d'.links.map (toLinkRec pid)) pid).length = _
          rw [hlpid, List.length_map]

/-- Witness for C1 at a concrete store: one PENDING page, a successful scrape
of one link - the post-state satisfies the durability invariant and the run
committed. -/
theorem scraperWorker_atomic_witness :
    goodStore (workerRun storePending 1 (some dataOneLink)).1 ∧
    (workerRun storePending 1 (some dataOneLink)).2 = false :=
  ⟨(scraperWorker_atomic storePending 1 (some dataOneLink) (by decide) (by decide)).1,
   ((scraperWorker_atomic storePending 1 (some dataOneLink) (by decide) (by decide)).2
       dataOneLink
       { id := 1, url := "http://e.co", title := none, status := .pending,
         linkCount := 0, userId := 7 }
       rfl (by decide)).1⟩

/-- C2: when the fetch or extraction throws, the transaction aborts and the
catch handler persists exactly: status FAILED, the failure-marker title
"Scraping Failed", linkCount untouched, and no Link rows from the failed
attempt (the link table is unchanged). -/
theorem scraperWorker_failure_path (s : Store) (pid : Nat) (p : PageRec)
    (hfind : findUnique s.pages pid = some p) :
    workerRun s pid none = (failStore s pid, true) ∧
    findUnique (failStore s pid).pages pid = some (failUpdate p) ∧
    (failStore s pid).links = s.links ∧
    (failUpdate p).status = .failed ∧
    (failUpdate p).title = some "Scraping Failed" ∧
    (failUpdate p).linkCount = p.linkCount := by
  refine ⟨?_, ?_, rfl, rfl, rfl, rfl⟩
  · simp [workerRun, workerTransaction_fetch_failed hfind, hfind]
  · show findUnique (updateWhere s.pages pid failUpdate) pid = some (failUpdate p)
    rw [findUnique_updateWhere s.pages pid failUpdate (fun _ => rfl), hfind]
    rfl

/-- Witness for C2 at a concrete store with one PENDING page. -/
theorem scraperWorker_failure_path_witness :
    workerRun storePending 1 none = (failStore storePending 1, true) ∧
    findUnique (failStore storePending 1).pages 1 =
      some (failUpdate { id := 1, url := "http://e.co", title := none,
                         status := .pending, linkCount := 0, userId := 7 }) ∧
    (failStore storePending 1).links = storePending.links ∧
    (failUpdate { id := 1, url := "http://e.co", title := none,
                  status := .pending, linkCount := 0, userId := 7 }).status = .failed ∧
    (failUpdate { id := 1, url := "http://e.co", title := none,
                  status := .pending, linkCount := 0, userId := 7 }).title =
      some "Scraping Failed" ∧
    (failUpdate { id := 1, url := "http://e.co", title := none,
                  status := .pending, linkCount := 0, userId := 7 }).linkCount =
      ({ id := 1, url := "http://e.co", title := none,
         status := .pending, linkCount := 0, userId := 7 } : PageRec).linkCount :=
  scraperWorker_failure_path storePending 1 _ (by decide)

/-- C3 counterexample: for a job whose page id is absent, the queue does not
drop the job after the first attempt - the worker rethrows and the queue
makes its full budget of 3 attempts, so the number of attempts made is not 1
as the claim's "no further attempt of that job" requires. -/
theorem missingPage_retried_cex :
    (runJob emptyStore 1 noFetch).2 = 3 ∧ (runJob emptyStore 1 noFetch).2 ≠ 1 := by
  decide

/-- C3 amended: for a job whose page id is absent, the worker does not crash -
every attempt leaves the store unchanged and signals a failed attempt - and
the queue redelivers the job until its configured budget of 3 attempts is
exhausted, after which the job is dropped. -/
theorem missingPage_job_dropped (s : Store) (pid : Nat) (fetches : Nat → Option ScrapedData)
    (h : findUnique s.pages pid = none) :
    (∀ f, workerRun s pid f = (s, true)) ∧
    runJob s pid fetches = (s, jobAttempts) := by
  have hw : ∀ f, workerRun s pid f = (s, true) := by
    intro f
    simp [workerRun, workerTransaction_not_found f h, h]
  refine ⟨hw, ?_⟩
  have aux : ∀ n made, runJobAux fetches pid s made n = (s, made + n) := by
    intro n
    induction n with
    | zero => intro made; simp [runJobAux]
    | succ k ih =>
      intro made
      simp only [runJobAux, hw, if_true]
      rw [ih]
      congr 1
      omega
  rw [runJob, aux]
  simp

/-- Witness for C3's amended theorem at the empty store. -/
theorem missingPage_job_dropped_witness :
    workerRun emptyStore 1 none = (emptyStore, true) ∧
    runJob emptyStore 1 noFetch = (emptyStore, jobAttempts) :=
  ⟨(missingPage_job_dropped emptyStore 1 noFetch (by decide)).1 none,
   (missingPage_job_dropped emptyStore 1 noFetch (by decide)).2⟩

/-- C4 counterexample: a concrete successful run (one PENDING page, fetch
succeeds with one link) in which no observable committed state has the page
in PROCESSING - the PROCESSING write happens inside the enclosing
transaction and is never separately committed, so the claimed observable
mid-flight PROCESSING state does not exist. -/
theorem processing_unobservable_cex :
    (workerRun storePending 1 (some dataOneLink)).2 = false ∧
    observableStates storePending 1 (some dataOneLink) =
      [storePending, (workerRun storePending 1 (some dataOneLink)).1] ∧
    pageStatus storePending 1 = some .pending ∧
    pageStatus (workerRun storePending 1 (some dataOneLink)).1 1 = some .completed := by
  decide

/-- C4 amended: the PROCESSING update is executed inside the same transaction
as the fetch and the final writes, so it is not committed before the fetch
begins: during a worker run on a page not already PROCESSING, no observable
committed state has the page in PROCESSING - committed status moves directly
to COMPLETED or FAILED. -/
theorem processing_never_observable (s : Store) (pid : Nat) (fetch : Option ScrapedData)
    (h : pageStatus s pid ≠ some .processing) :
    ∀ t ∈ observableStates s pid fetch, pageStatus t pid ≠ some .processing := by
  intro t ht
  cases hfind : findUnique s.pages pid with
  | none =>
    simp only [observableStates, workerTransaction_not_found fetch hfind, hfind,
      List.mem_singleton] at ht
    subst ht
    exact h
  | some p =>
    cases fetch with
    | none =>
      simp only [observableStates, workerTransaction_fetch_failed hfind, hfind,
        List.mem_cons, List.not_mem_nil, or_false] at ht
      rcases ht with rfl | rfl
      · exact h
      · show pageStatus (failStore s pid) pid ≠ some .processing
        simp only [pageStatus, failStore]
        rw [findUnique_updateWhere s.pages pid failUpdate (fun _ => rfl), hfind]
        simp [failUpdate]
    | some d =>
      simp only [observableStates, workerTransaction_success d hfind,
        List.mem_cons, List.not_mem_nil, or_false] at ht
      rcases ht with rfl | rfl
      · exact h
      · simp only [pageStatus]
        rw [findUnique_updateWhere s.pages pid (completedUpdate d) (fun _ => rfl), hfind]
        simp [completedUpdate]

/-- Witness for C4's amended theorem: the committed post-state of a failing
run on a FAILED page is not PROCESSING. -/
theorem processing_never_observable_witness :
    decide (pageStatus (failStore storeFailed 1) 1 = some PageStatus.processing) = false :=
  decide_eq_false
    (processing_never_observable storeFailed 1 none (by decide)
      (failStore storeFailed 1) (by decide))

/-! ## Claim theorems for the Link Extractor -/

theorem isPrefixOf_append_self (l t : List Char) : l.isPrefixOf (l ++ t) = true := by
  induction l with
  | nil => simp
  | cons c cs ih => simp [List.isPrefixOf_cons₂, ih]

theorem strStartsWith_append (a b : String) : strStartsWith (a ++ b) a = true := by
  simp only [strStartsWith, String.data_append]
  exact isPrefixOf_append_self a.data b.data

theorem extractLinksGo_acc (base : Url) (as : List Anchor) :
    ∀ acc, extractLinksGo base as acc = acc ++ extractLinks as base := by
  induction as with
  | nil => intro acc; simp [extractLinksGo, extractLinks]
  | cons a rest ih =>
    intro acc
    show extractLinksGo base (a :: rest) acc =
      acc ++ extractLinksGo base (a :: rest) []
    simp only [extractLinksGo]
    split
    · exact ih acc
    · split
      · exact ih acc
      · rw [ih, ih (([] : List ScrapedLink) ++ _)]
        simp

theorem extractLinks_eq_filterMap (anchors : List Anchor) (base : Url) :
    extractLinks anchors base = anchors.filterMap (emittedLink base) := by
  induction anchors with
  | nil => rfl
  | cons a rest ih =>
    show extractLinksGo base (a :: rest) [] = _
    simp only [extractLinksGo, List.filterMap_cons, emittedLink]
    split
    · exact ih
    · split
      · exact ih
      · rw [extractLinksGo_acc, ih]
        simp

/-- C5 counterexample: on the spec's fixture (two absolute anchors, one
relative anchor, one javascript: anchor, one fragment-only anchor) the
extractor yields 3 Link records, not the 2 the claim asserts - the relative
anchor resolves against the base URL and is included. -/
theorem extractLinks_fixture_count_cex :
    (extractLinks fixtureAnchors fixtureBase).length = 3 ∧
    (extractLinks fixtureAnchors fixtureBase).length ≠ 2 := by
  decide

/-- C5 amended: the extractor emits one link per href-bearing anchor in
document order, skipping exactly the empty, fragment-only ("#"),
javascript:, and unresolvable hrefs; on the spec's fixture it yields exactly
3 Link records (the two absolute anchors and the resolved relative anchor,
with correct externality flags), the javascript: and fragment-only anchors
excluded. -/
theorem extractLinks_skip_characterization :
    (∀ anchors base, extractLinks anchors base = anchors.filterMap (emittedLink base)) ∧
    (extractLinks fixtureAnchors fixtureBase).map (fun l => (l.href, l.isExternal)) =
      [("https://fx.test/a", false), ("https://ext.test/b", true),
       ("https://fx.test/rel.html", false)] :=
  ⟨fun anchors base => extractLinks_eq_filterMap anchors base, by decide⟩

/-- C6 counterexample: against the base http://a.co/ the cross-origin link
http://a.com/x is emitted with isExternal = false, although its origin
http://a.com differs from the base origin http://a.co - the code's
string-prefix test disagrees with origin inequality. -/
theorem isExternal_prefix_cex :
    extractLinks [{ href := "http://a.com/x", text := "t", title := none }] prefixBase =
      [{ href := "http://a.com/x", text := "t", isExternal := false, title := none }] ∧
    resolveUrl "http://a.com/x" prefixBase = some prefixUrl ∧
    origin prefixUrl ≠ origin prefixBase := by
  decide

/-- C6 amended: the externality flag is the string-prefix test - it is true
exactly when the resolved URL's serialisation does not start with the base
origin string. The flag being true still implies the origins differ (a
same-origin link is never flagged external), but a different-origin URL
whose serialisation extends the base origin string is flagged internal. -/
theorem isExternal_prefix_semantics (u base : Url) :
    (isExternalOf (hrefStr u) base = true ↔
      strStartsWith (hrefStr u) (origin base) = false) ∧
    (isExternalOf (hrefStr u) base = true → origin u ≠ origin base) := by
  constructor
  · simp [isExternalOf]
  · intro hext heq
    have hpre : strStartsWith (hrefStr u) (origin base) = true := by
      rw [← heq]
      show strStartsWith (origin u ++ u.path) (origin u) = true
      exact strStartsWith_append _ _
    simp [isExternalOf, hpre] at hext

/-- Witness for C6's amended theorem: a URL whose serialisation does not
extend the base origin is flagged external, and its origin indeed differs. -/
theorem isExternal_prefix_semantics_witness :
    decide (origin { scheme := "http", host := "b.co", path := "/" } =
      origin prefixBase) = false :=
  decide_eq_false
    ((isExternal_prefix_semantics { scheme := "http", host := "b.co", path := "/" }
      prefixBase).2 (by decide))

/-! ## Claim theorems for the page routes -/

/-- C7 counterexample: the duplicate check of POST /api/pages is an exact
string match, not case-insensitive. After submitting http://e.co, the same
URL with its host upper-cased - http://E.CO, which passes the
case-sensitive validateUrl middleware because its scheme prefix is
lower-case - is accepted as a second create, and two Pages exist for the
owner. (A case-variant scheme such as HTTP://E.CO never reaches the
duplicate check: the middleware regex rejects it with a 400.) -/
theorem duplicate_check_case_sensitive_cex :
    (createPage (createPage emptyStore [] 7 "http://e.co" 1).1
       (createPage emptyStore [] 7 "http://e.co" 1).2.1 7 "http://E.CO" 2).2.2 =
      CreateResult.created 2 ∧
    (createPage (createPage emptyStore [] 7 "http://e.co" 1).1
       (createPage emptyStore [] 7 "http://e.co" 1).2.1 7 "http://E.CO" 2).1.pages.length =
      2 ∧
    createPage emptyStore [] 7 "HTTP://E.CO" 1 = (emptyStore, [], .invalidUrl) := by
  decide

/-- C7 amended: a url failing the case-sensitive validateUrl middleware
(such as a case-variant scheme HTTP://...) is answered 400 before the
duplicate check and changes nothing. For a url passing validation, the
duplicate comparison is exact (case-sensitive): when a page with exactly
this url already exists for the owner, the create is rejected with the
duplicate-URL error and nothing changes; otherwise the create succeeds,
appending one PENDING page with linkCount 0 and enqueueing one scrape job.
Validation-passing submissions differing only in letter case outside the
scheme prefix (http://e.co vs http://E.CO) are distinct urls under this
comparison and create two separate Pages. -/
theorem createPage_exact_duplicate (s : Store) (jobs : List Job) (uid : Nat)
    (url : String) (nid : Nat) :
    (validateUrlReq url = false →
       createPage s jobs uid url nid = (s, jobs, .invalidUrl)) ∧
    (validateUrlReq url = true →
       (∃ p ∈ s.pages, p.url = url ∧ p.userId = uid) →
       createPage s jobs uid url nid = (s, jobs, .duplicate)) ∧
    (validateUrlReq url = true →
       (∀ p ∈ s.pages, ¬(p.url = url ∧ p.userId = uid)) →
       createPage s jobs uid url nid =
         ({ s with pages := s.pages ++
              [{ id := nid, url := url, title := none, status := .pending,
                 linkCount := 0, userId := uid }] },
          jobs ++ [{ pageId := nid, url := url, userId := uid }],
          .created nid)) := by
  refine ⟨?_, ?_, ?_⟩
  · intro hv
    simp [createPage, hv]
  · intro hv h
    have hsome : (s.pages.find? (fun p => p.url == url && p.userId == uid)).isSome := by
      rw [List.find?_isSome]
      rcases h with ⟨p, hp, h1, h2⟩
      exact ⟨p, hp, by simp [h1, h2]⟩
    rcases Option.isSome_iff_exists.mp hsome with ⟨q, hq⟩
    simp [createPage, hv, hq]
  · intro hv h
    have hnone : s.pages.find? (fun p => p.url == url && p.userId == uid) = none := by
      rw [List.find?_eq_none]
      intro p hp
      simpa using h p hp
    simp [createPage, hv, hnone]

/-- Witness for C7's amended theorem: a case-variant scheme is rejected by
validation, an exact duplicate is rejected, and a fresh valid url is created
as PENDING. -/
theorem createPage_exact_duplicate_witness :
    createPage emptyStore [] 7 "HTTP://E.CO" 3 = (emptyStore, [], .invalidUrl) ∧
    createPage storePending [] 7 "http://e.co" 2 = (storePending, [], .duplicate) ∧
    createPage emptyStore [] 7 "http://e.co" 1 =
      ({ emptyStore with pages := emptyStore.pages ++
           [{ id := 1, url := "http://e.co", title := none, status := .pending,
              linkCount := 0, userId := 7 }] },
       [] ++ [{ pageId := 1, url := "http://e.co", userId := 7 }],
       .created 1) :=
  ⟨(createPage_exact_duplicate emptyStore [] 7 "HTTP://E.CO" 3).1 (by decide),
   (createPage_exact_duplicate storePending [] 7 "http://e.co" 2).2.1 (by decide) (by decide),
   (createPage_exact_duplicate emptyStore [] 7 "http://e.co" 1).2.2 (by decide) (by decide)⟩

/-- C8: retry succeeds exactly when the page's status is FAILED. For the
owner's page found by id: if it is FAILED, the handler resets its status to
PENDING (the committed page row is PENDING afterwards) and enqueues one
scrape job for it; otherwise the handler answers with the
"Only failed pages can be retried" error and leaves the store and the queue
unchanged. -/
theorem retryPage_only_from_failed (s : Store) (jobs : List Job) (uid pid : Nat)
    (page : PageRec)
    (hnd : (s.pages.map (fun p => p.id)).Nodup)
    (hfind : s.pages.find? (fun p => p.id == pid && p.userId == uid) = some page) :
    (page.status = .failed →
       retryPage s jobs uid pid =
         ({ s with pages := updateWhere s.pages pid (fun p => { p with status := .pending }) },
          jobs ++ [{ pageId := page.id, url := page.url, userId := uid }], .ok) ∧
       ∃ q, findUnique (retryPage s jobs uid pid).1.pages pid = some q ∧
         q.status = .pending) ∧
    (page.status ≠ .failed →
       retryPage s jobs uid pid = (s, jobs, .onlyFailed)) := by
  have hmem : page ∈ s.pages := List.mem_of_find?_eq_some hfind
  have hid : page.id = pid := by
    have := List.find?_some hfind
    simp at this
    exact this.1
  constructor
  · intro hst
    have heq : retryPage s jobs uid pid =
        ({ s with pages := updateWhere s.pages pid (fun p => { p with status := .pending }) },
         jobs ++ [{ pageId := page.id, url := page.url, userId := uid }], .ok) := by
      simp [retryPage, hfind, hst]
    refine ⟨heq, ?_⟩
    have hfu : findUnique s.pages pid = some page := by
      have hsome : (s.pages.find? (fun p => p.id == pid)).isSome := by
        rw [List.find?_isSome]
        exact ⟨page, hmem, by simp [hid]⟩
      rcases Option.isSome_iff_exists.mp hsome with ⟨q, hq⟩
      have : page = q := findUnique_unique hnd hmem hid hq
      rw [show findUnique s.pages pid = s.pages.find? (fun p => p.id == pid) from rfl, hq, this]
    refine ⟨{ page with status := .pending }, ?_, rfl⟩
    rw [heq]
    show findUnique (updateWhere s.pages pid (fun p => { p with status := .pending })) pid = _
    rw [findUnique_updateWhere s.pages pid (fun p => { p with status := .pending })
          (fun _ => rfl), hfu]
    rfl
  · intro hst
    simp [retryPage, hfind, hst]

/-- Witness for C8 at concrete stores: a FAILED page is retried and reset to
PENDING with a job enqueued; a PENDING page is rejected unchanged. -/
theorem retryPage_only_from_failed_witness :
    retryPage storeFailed [] 7 1 =
      ({ pages := [{ id := 1, url := "http://e.co", title := none, status := .pending,
                     linkCount := 0, userId := 7 }], links := [] },
       [{ pageId := 1, url := "http://e.co", userId := 7 }], .ok) ∧
    retryPage storePending [] 7 1 = (storePending, [], .onlyFailed) :=
  ⟨(((retryPage_only_from_failed storeFailed [] 7 1
        { id := 1, url := "http://e.co", title := none, status := .failed,
          linkCount := 0, userId := 7 } (by decide) (by decide)).1 (by decide)).1).trans
      (by decide),
   (retryPage_only_from_failed storePending [] 7 1
      { id := 1, url := "http://e.co", title := none, status := .pending,
        linkCount := 0, userId := 7 } (by decide) (by decide)).2 (by decide)⟩

/-! ## Claim theorems for the client notification engine -/

theorem countSucc_append (o₁ o₂ : List Notif) (pid : Nat) :
    countSucc (o₁ ++ o₂) pid = countSucc o₁ pid + countSucc o₂ pid := by
  simp [countSucc, List.filter_append]

theorem countFail_append (o₁ o₂ : List Notif) (pid : Nat) :
    countFail (o₁ ++ o₂) pid = countFail o₁ pid + countFail o₂ pid := by
  simp [countFail, List.filter_append]

theorem countSucc_cons_succ (out : List Notif) (qid pid : Nat) :
    countSucc ({ pageId := qid, kind := .success } :: out) pid =
      (if qid = pid then 1 else 0) + countSucc out pid := by
  by_cases h : qid = pid <;>
    simp [countSucc, List.filter_cons, h, Nat.add_comm]

theorem countSucc_cons_fail (out : List Notif) (qid pid : Nat) :
    countSucc ({ pageId := qid, kind := .failure } :: out) pid = countSucc out pid := by
  have hk : (NotifKind.failure == NotifKind.success) = false := by decide
  simp [countSucc, List.filter_cons, hk]

theorem countFail_cons_succ (out : List Notif) (qid pid : Nat) :
    countFail ({ pageId := qid, kind := .success } :: out) pid = countFail out pid := by
  have hk : (NotifKind.success == NotifKind.failure) = false := by decide
  simp [countFail, List.filter_cons, hk]

theorem countFail_cons_fail (out : List Notif) (qid pid : Nat) :
    countFail ({ pageId := qid, kind := .failure } :: out) pid =
      (if qid = pid then 1 else 0) + countFail out pid := by
  by_cases h : qid = pid <;>
    simp [countFail, List.filter_cons, h, Nat.add_comm]

/-- Single-poll bookkeeping for success notifications of one page: at most one
fires per pass, none fires when the (pid, COMPLETED) key is already
recorded, the key is recorded afterwards exactly when it was recorded before
or one fired, and a qualifying entry (COMPLETED, linkCount > 0,
non-temporary) guarantees the key is recorded afterwards. -/
theorem succ_master (pid : Nat) :
    ∀ (pages : List ViewPage) (notified : List (Nat × PageStatus)),
      countSucc (checkForCompletedJobs notified pages).2 pid ≤ 1 ∧
      ((pid, PageStatus.completed) ∈ notified →
        countSucc (checkForCompletedJobs notified pages).2 pid = 0) ∧
      ((pid, PageStatus.completed) ∈ (checkForCompletedJobs notified pages).1 ↔
        (pid, PageStatus.completed) ∈ notified ∨
          1 ≤ countSucc (checkForCompletedJobs notified pages).2 pid) ∧
      ((∃ p ∈ pages, p.id = pid ∧ p.status = .completed ∧ 0 < p.linkCount ∧
          p.isTemporary = false) →
        (pid, PageStatus.completed) ∈ (checkForCompletedJobs notified pages).1) := by
  intro pages
  induction pages with
  | nil =>
    intro notified
    simp [checkForCompletedJobs, countSucc]
  | cons p rest ih =>
    intro notified
    by_cases ht : p.isTemporary = true
    · have hred : checkForCompletedJobs notified (p :: rest) =
          checkForCompletedJobs notified rest := by
        simp [checkForCompletedJobs, ht]
      rw [hred]
      refine ⟨(ih notified).1, (ih notified).2.1, (ih notified).2.2.1, ?_⟩
      rintro ⟨q, hq, hqs⟩
      rcases List.mem_cons.mp hq with rfl | hq'
      · exact absurd ht (by simp [hqs.2.2.2])
      · exact (ih notified).2.2.2 ⟨q, hq', hqs⟩
    · by_cases h1 : p.status = .completed ∧ 0 < p.linkCount ∧ (p.id, p.status) ∉ notified
      · obtain ⟨hc, hlc, hnin⟩ := h1
        have hninc : (p.id, PageStatus.completed) ∉ notified := by
          rw [← hc]
          exact hnin
        have hred : checkForCompletedJobs notified (p :: rest) =
            ((checkForCompletedJobs (notified ++ [(p.id, p.status)]) rest).1,
             { pageId := p.id, kind := .success } ::
               (checkForCompletedJobs (notified ++ [(p.id, p.status)]) rest).2) := by
          simp [checkForCompletedJobs, ht, hc, hlc, hninc]
        rw [hred]
        have ih' := ih (notified ++ [(p.id, p.status)])
        by_cases hpid : p.id = pid
        · have hkey : (pid, PageStatus.completed) ∈ notified ++ [(p.id, p.status)] := by
            simp [hpid, hc]
          have hz : countSucc (checkForCompletedJobs
              (notified ++ [(p.id, p.status)]) rest).2 pid = 0 := ih'.2.1 hkey
          refine ⟨?_, ?_, ?_, ?_⟩
          · rw [countSucc_cons_succ, hz, if_pos hpid]
          · intro habs
            rw [hpid, hc] at hnin
            exact absurd habs hnin
          · rw [countSucc_cons_succ, hz, if_pos hpid]
            exact iff_of_true (ih'.2.2.1.mpr (Or.inl hkey)) (Or.inr (by omega))
          · intro _
            exact ih'.2.2.1.mpr (Or.inl hkey)
        · have hmem : ∀ st, ((pid, st) ∈ notified ++ [(p.id, p.status)]) ↔
              (pid, st) ∈ notified := by
            intro st
            constructor
            · intro hin
              rcases List.mem_append.mp hin with hin' | hin'
              · exact hin'
              · rcases List.mem_singleton.mp hin' with heq
                cases heq
                exact absurd rfl hpid
            · intro hin
              exact List.mem_append.mpr (Or.inl hin)
          refine ⟨?_, ?_, ?_, ?_⟩
          · rw [countSucc_cons_succ, if_neg hpid]
            simpa using ih'.1
          · intro hin
            rw [countSucc_cons_succ, if_neg hpid]
            simpa using ih'.2.1 ((hmem _).mpr hin)
          · rw [countSucc_cons_succ, if_neg hpid]
            simpa [hmem _] using ih'.2.2.1
          · rintro ⟨q, hq, hqs⟩
            rcases List.mem_cons.mp hq with rfl | hq'
            · exact absurd hqs.1 hpid
            · exact ih'.2.2.2 ⟨q, hq', hqs⟩
      · by_cases h2 : p.status = .failed ∧ (p.id, p.status) ∉ notified
        · obtain ⟨hf, hnin⟩ := h2
          have hninf : (p.id, PageStatus.failed) ∉ notified := by
            rw [← hf]
            exact hnin
          have hred : checkForCompletedJobs notified (p :: rest) =
              ((checkForCompletedJobs (notified ++ [(p.id, p.status)]) rest).1,
               { pageId := p.id, kind := .failure } ::
                 (checkForCompletedJobs (notified ++ [(p.id, p.status)]) rest).2) := by
            simp [checkForCompletedJobs, ht, h1, hf, hninf]
          rw [hred]
          have ih' := ih (notified ++ [(p.id, p.status)])
          have hmem : ((pid, PageStatus.completed) ∈ notified ++ [(p.id, p.status)]) ↔
              (pid, PageStatus.completed) ∈ notified := by
            constructor
            · intro hin
              rcases List.mem_append.mp hin with hin' | hin'
              · exact hin'
              · rcases List.mem_singleton.mp hin' with heq
                rw [hf] at heq
                cases heq
            · intro hin
              exact List.mem_append.mpr (Or.inl hin)
          refine ⟨?_, ?_, ?_, ?_⟩
          · rw [countSucc_cons_fail]
            exact ih'.1
          · intro hin
            rw [countSucc_cons_fail]
            exact ih'.2.1 (hmem.mpr hin)
          · rw [countSucc_cons_fail]
            simpa [hmem] using ih'.2.2.1
          · rintro ⟨q, hq, hqs⟩
            rcases List.mem_cons.mp hq with rfl | hq'
            · rw [hqs.2.1] at hf
              cases hf
            · exact ih'.2.2.2 ⟨q, hq', hqs⟩
        · have hred : checkForCompletedJobs notified (p :: rest) =
              checkForCompletedJobs notified rest := by
            simp [checkForCompletedJobs, ht, h1, h2]
          rw [hred]
          refine ⟨(ih notified).1, (ih notified).2.1, (ih notified).2.2.1, ?_⟩
          rintro ⟨q, hq, hqs⟩
          rcases List.mem_cons.mp hq with rfl | hq'
          · have hin : (q.id, q.status) ∈ notified := by
              by_contra hnin
              exact h1 ⟨hqs.2.1, hqs.2.2.1, hnin⟩
            have hkey : (pid, PageStatus.completed) ∈ notified := by
              rw [← hqs.1, ← hqs.2.1]
              exact hin
            exact (ih notified).2.2.1.mpr (Or.inl hkey)
          · exact (ih notified).2.2.2 ⟨q, hq', hqs⟩

/-- Single-poll bookkeeping for failure notifications of one page: the
(pid, FAILED) key is recorded afterwards exactly when it was recorded before
or a failure toast fired, and a non-temporary FAILED entry guarantees the
key is recorded afterwards (no linkCount condition). -/
theorem fail_master (pid : Nat) :
    ∀ (pages : List ViewPage) (notified : List (Nat × PageStatus)),
      ((pid, PageStatus.failed) ∈ (checkForCompletedJobs notified pages).1 ↔
        (pid, PageStatus.failed) ∈ notified ∨
          1 ≤ countFail (checkForCompletedJobs notified pages).2 pid) ∧
      ((∃ p ∈ pages, p.id = pid ∧ p.status = .failed ∧ p.isTemporary = false) →
        (pid, PageStatus.failed) ∈ (checkForCompletedJobs notified pages).1) := by
  intro pages
  induction pages with
  | nil =>
    intro notified
    simp [checkForCompletedJobs, countFail]
  | cons p rest ih =>
    intro notified
    by_cases ht : p.isTemporary = true
    · have hred : checkForCompletedJobs notified (p :: rest) =
          checkForCompletedJobs notified rest := by
        simp [checkForCompletedJobs, ht]
      rw [hred]
      refine ⟨(ih notified).1, ?_⟩
      rintro ⟨q, hq, hqs⟩
      rcases List.mem_cons.mp hq with rfl | hq'
      · exact absurd ht (by simp [hqs.2.2])
      · exact (ih notified).2 ⟨q, hq', hqs⟩
    · by_cases h1 : p.status = .completed ∧ 0 < p.linkCount ∧ (p.id, p.status) ∉ notified
      · obtain ⟨hc, hlc, hnin⟩ := h1
        have hninc : (p.id, PageStatus.completed) ∉ notified := by
          rw [← hc]
          exact hnin
        have hred : checkForCompletedJobs notified (p :: rest) =
            ((checkForCompletedJobs (notified ++ [(p.id, p.status)]) rest).1,
             { pageId := p.id, kind := .success } ::
               (checkForCompletedJobs (notified ++ [(p.id, p.status)]) rest).2) := by
          simp [checkForCompletedJobs, ht, hc, hlc, hninc]
        rw [hred]
        have ih' := ih (notified ++ [(p.id, p.status)])
        have hmem : ((pid, PageStatus.failed) ∈ notified ++ [(p.id, p.status)]) ↔
            (pid, PageStatus.failed) ∈ notified := by
          constructor
          · intro hin
            rcases List.mem_append.mp hin with hin' | hin'
            · exact hin'
            · rcases List.mem_singleton.mp hin' with heq
              rw [hc] at heq
              cases heq
          · intro hin
            exact List.mem_append.mpr (Or.inl hin)
        refine ⟨?_, ?_⟩
        · rw [countFail_cons_succ]
          simpa [hmem] using ih'.1
        · rintro ⟨q, hq, hqs⟩
          rcases List.mem_cons.mp hq with rfl | hq'
          · rw [hqs.2.1] at hc
            cases hc
          · exact ih'.2 ⟨q, hq', hqs⟩
      · by_cases h2 : p.status = .failed ∧ (p.id, p.status) ∉ notified
        · obtain ⟨hf, hnin⟩ := h2
          have hninf : (p.id, PageStatus.failed) ∉ notified := by
            rw [← hf]
            exact hnin
          have hred : checkForCompletedJobs notified (p :: rest) =
              ((checkForCompletedJobs (notified ++ [(p.id, p.status)]) rest).1,
               { pageId := p.id, kind := .failure } ::
                 (checkForCompletedJobs (notified ++ [(p.id, p.status)]) rest).2) := by
            simp [checkForCompletedJobs, ht, h1, hf, hninf]
          rw [hred]
          have ih' := ih (notified ++ [(p.id, p.status)])
          by_cases hpid : p.id = pid
          · have hkey : (pid, PageStatus.failed) ∈ notified ++ [(p.id, p.status)] := by
              simp [hpid, hf]
            refine ⟨?_, ?_⟩
            · rw [countFail_cons_fail, if_pos hpid]
              exact iff_of_true (ih'.1.mpr (Or.inl hkey)) (Or.inr (by omega))
            · intro _
              exact ih'.1.mpr (Or.inl hkey)
          · have hmem : ((pid, PageStatus.failed) ∈ notified ++ [(p.id, p.status)]) ↔
                (pid, PageStatus.failed) ∈ notified := by
              constructor
              · intro hin
                rcases List.mem_append.mp hin with hin' | hin'
                · exact hin'
                · rcases List.mem_singleton.mp hin' with heq
                  rw [hf] at heq
                  cases heq
                  exact absurd rfl hpid
              · intro hin
                exact List.mem_append.mpr (Or.inl hin)
            refine ⟨?_, ?_⟩
            · rw [countFail_cons_fail, if_neg hpid]
              simpa [hmem] using ih'.1
            · rintro ⟨q, hq, hqs⟩
              rcases List.mem_cons.mp hq with rfl | hq'
              · exact absurd hqs.1 hpid
              · exact ih'.2 ⟨q, hq', hqs⟩
        · have hred : checkForCompletedJobs notified (p :: rest) =
              checkForCompletedJobs notified rest := by
            simp [checkForCompletedJobs, ht, h1, h2]
          rw [hred]
          refine ⟨(ih notified).1, ?_⟩
          rintro ⟨q, hq, hqs⟩
          rcases List.mem_cons.mp hq with rfl | hq'
          · have hin : (q.id, q.status) ∈ notified := by
              by_contra hnin
              exact h2 ⟨hqs.2.1, hnin⟩
            have hkey : (pid, PageStatus.failed) ∈ notified := by
              rw [← hqs.1, ← hqs.2.1]
              exact hin
            exact (ih notified).1.mpr (Or.inl hkey)
          · exact (ih notified).2 ⟨q, hq', hqs⟩

/-- Single-poll: when every COMPLETED entry for the page has linkCount 0, no
success toast fires for it. -/
theorem succ_zero (pid : Nat) :
    ∀ (pages : List ViewPage) (notified : List (Nat × PageStatus)),
      (∀ p ∈ pages, p.id = pid → p.status = .completed → p.linkCount = 0) →
      countSucc (checkForCompletedJobs notified pages).2 pid = 0 := by
  intro pages
  induction pages with
  | nil =>
    intro notified _
    simp [checkForCompletedJobs, countSucc]
  | cons p rest ih =>
    intro notified h
    have hrest : ∀ q ∈ rest, q.id = pid → q.status = .completed → q.linkCount = 0 :=
      fun q hq => h q (List.mem_cons_of_mem p hq)
    by_cases ht : p.isTemporary = true
    · have hred : checkForCompletedJobs notified (p :: rest) =
          checkForCompletedJobs notified rest := by
        simp [checkForCompletedJobs, ht]
      rw [hred]
      exact ih notified hrest
    · by_cases h1 : p.status = .completed ∧ 0 < p.linkCount ∧ (p.id, p.status) ∉ notified
      · obtain ⟨hc, hlc, hnin⟩ := h1
        have hninc : (p.id, PageStatus.completed) ∉ notified := by
          rw [← hc]
          exact hnin
        have hred : checkForCompletedJobs notified (p :: rest) =
            ((checkForCompletedJobs (notified ++ [(p.id, p.status)]) rest).1,
             { pageId := p.id, kind := .success } ::
               (checkForCompletedJobs (notified ++ [(p.id, p.status)]) rest).2) := by
          simp [checkForCompletedJobs, ht, hc, hlc, hninc]
        rw [hred]
        by_cases hpid : p.id = pid
        · have := h p (List.mem_cons_self p rest) hpid hc
          omega
        · rw [countSucc_cons_succ, if_neg hpid]
          simpa using ih (notified ++ [(p.id, p.status)]) hrest
      · by_cases h2 : p.status = .failed ∧ (p.id, p.status) ∉ notified
        · obtain ⟨hf, hnin⟩ := h2
          have hninf : (p.id, PageStatus.failed) ∉ notified := by
            rw [← hf]
            exact hnin
          have hred : checkForCompletedJobs notified (p :: rest) =
              ((checkForCompletedJobs (notified ++ [(p.id, p.status)]) rest).1,
               { pageId := p.id, kind := .failure } ::
                 (checkForCompletedJobs (notified ++ [(p.id, p.status)]) rest).2) := by
            simp [checkForCompletedJobs, ht, h1, hf, hninf]
          rw [hred, countSucc_cons_fail]
          exact ih (notified ++ [(p.id, p.status)]) hrest
        · have hred : checkForCompletedJobs notified (p :: rest) =
              checkForCompletedJobs notified rest := by
            simp [checkForCompletedJobs, ht, h1, h2]
          rw [hred]
          exact ih notified hrest

/-- Multi-poll bookkeeping for success notifications, with the notified set
persisted (localStorage) across polls and reloads. -/
theorem runPolls_succ_master (pid : Nat) :
    ∀ (polls : List (List ViewPage)) (notified : List (Nat × PageStatus)),
      countSucc (runPolls notified polls).2 pid ≤ 1 ∧
      ((pid, PageStatus.completed) ∈ notified →
        countSucc (runPolls notified polls).2 pid = 0) ∧
      ((pid, PageStatus.completed) ∈ (runPolls notified polls).1 ↔
        (pid, PageStatus.completed) ∈ notified ∨
          1 ≤ countSucc (runPolls notified polls).2 pid) ∧
      ((∃ ps ∈ polls, ∃ p ∈ ps, p.id = pid ∧ p.status = .completed ∧ 0 < p.linkCount ∧
          p.isTemporary = false) →
        (pid, PageStatus.completed) ∈ (runPolls notified polls).1) := by
  intro polls
  induction polls with
  | nil =>
    intro notified
    simp [runPolls, countSucc]
  | cons ps rest ih =>
    intro notified
    have hred : runPolls notified (ps :: rest) =
        ((runPolls (checkForCompletedJobs notified ps).1 rest).1,
         (checkForCompletedJobs notified ps).2 ++
           (runPolls (checkForCompletedJobs notified ps).1 rest).2) := rfl
    have m := succ_master pid ps notified
    have ih' := ih (checkForCompletedJobs notified ps).1
    rw [hred]
    have hcnt : countSucc ((checkForCompletedJobs notified ps).2 ++
        (runPolls (checkForCompletedJobs notified ps).1 rest).2) pid =
        countSucc (checkForCompletedJobs notified ps).2 pid +
          countSucc (runPolls (checkForCompletedJobs notified ps).1 rest).2 pid :=
      countSucc_append _ _ pid
    refine ⟨?_, ?_, ?_, ?_⟩
    · rw [hcnt]
      by_cases hc1 : 1 ≤ countSucc (checkForCompletedJobs notified ps).2 pid
      · have hkey := m.2.2.1.mpr (Or.inr hc1)
        have hz := ih'.2.1 hkey
        have hb := m.1
        omega
      · have hb := ih'.1
        omega
    · intro hin
      rw [hcnt]
      have h1 := m.2.1 hin
      have h2 := ih'.2.1 (m.2.2.1.mpr (Or.inl hin))
      omega
    · rw [hcnt]
      constructor
      · intro hfin
        rcases ih'.2.2.1.mp hfin with hc | hcnt2
        · rcases m.2.2.1.mp hc with hn | hcnt1
          · exact Or.inl hn
          · exact Or.inr (by omega)
        · exact Or.inr (by omega)
      · rintro (hn | hcnt')
        · exact ih'.2.2.1.mpr (Or.inl (m.2.2.1.mpr (Or.inl hn)))
        · by_cases hc1 : 1 ≤ countSucc (checkForCompletedJobs notified ps).2 pid
          · exact ih'.2.2.1.mpr (Or.inl (m.2.2.1.mpr (Or.inr hc1)))
          · have hge : 1 ≤ countSucc
                (runPolls (checkForCompletedJobs notified ps).1 rest).2 pid := by
              omega
            exact ih'.2.2.1.mpr (Or.inr hge)
    · rintro ⟨ps', hps', hex⟩
      rcases List.mem_cons.mp hps' with rfl | hps''
      · exact ih'.2.2.1.mpr (Or.inl (m.2.2.2 hex))
      · exact ih'.2.2.2 ⟨ps', hps'', hex⟩

/-- Multi-poll: when every COMPLETED entry for the page in every poll has
linkCount 0, no success toast ever fires for it. -/
theorem runPolls_succ_zero (pid : Nat) :
    ∀ (polls : List (List ViewPage)) (notified : List (Nat × PageStatus)),
      (∀ ps ∈ polls, ∀ p ∈ ps, p.id = pid → p.status = .completed → p.linkCount = 0) →
      countSucc (runPolls notified polls).2 pid = 0 := by
  intro polls
  induction polls with
  | nil =>
    intro notified _
    simp [runPolls, countSucc]
  | cons ps rest ih =>
    intro notified h
    have hred : runPolls notified (ps :: rest) =
        ((runPolls (checkForCompletedJobs notified ps).1 rest).1,
         (checkForCompletedJobs notified ps).2 ++
           (runPolls (checkForCompletedJobs notified ps).1 rest).2) := rfl
    rw [hred, countSucc_append]
    have h1 := succ_zero pid ps notified (h ps (List.mem_cons_self ps rest))
    have h2 := ih (checkForCompletedJobs notified ps).1
      (fun ps' hps' => h ps' (List.mem_cons_of_mem ps hps'))
    omega

/-- C9 counterexample: a non-temporary page that reaches COMPLETED with
linkCount 0 is polled twice and no completed notification ever fires, so
"exactly one completed notification fires for every page that transitions to
COMPLETED" fails as stated. -/
theorem completed_zero_links_no_notification_cex :
    countSucc (runPolls [] [[viewCompletedZero], [viewCompletedZero]]).2 1 ≠ 1 := by
  decide

/-- C9 amended: the engine notifies each (pageId, status) pair at most once
ever, against a record persisted across reloads (the threaded notified set):
across any poll sequence at most one completed notification fires per page,
none fires when the pair is already recorded, and for a page observed
COMPLETED with linkCount > 0 (non-temporary) whose pair is not yet recorded,
exactly one completed notification fires across all polls of that terminal
state, reloads included. -/
theorem notification_dedup (notified : List (Nat × PageStatus))
    (polls : List (List ViewPage)) (pid : Nat) :
    countSucc (runPolls notified polls).2 pid ≤ 1 ∧
    ((pid, PageStatus.completed) ∈ notified →
      countSucc (runPolls notified polls).2 pid = 0) ∧
    ((pid, PageStatus.completed) ∉ notified →
      (∃ ps ∈ polls, ∃ p ∈ ps, p.id = pid ∧ p.status = .completed ∧ 0 < p.linkCount ∧
        p.isTemporary = false) →
      countSucc (runPolls notified polls).2 pid = 1) := by
  have m := runPolls_succ_master pid polls notified
  refine ⟨m.1, m.2.1, ?_⟩
  intro hnot hex
  have hmem := m.2.2.2 hex
  rcases m.2.2.1.mp hmem with h | h
  · exact absurd h hnot
  · have hb := m.1
    omega

/-- Witness for C9's amended theorem: one COMPLETED page with three links,
polled twice against an empty persisted record, produces exactly one
completed notification. -/
theorem notification_dedup_witness :
    countSucc (runPolls [] [[viewCompletedThree], [viewCompletedThree]]).2 1 = 1 :=
  (notification_dedup [] [[viewCompletedThree], [viewCompletedThree]] 1).2.2
    (by decide) (by decide)

/-- C10: the client never emits a completed notification for a non-temporary
COMPLETED page whose linkCount is 0 - across any poll sequence in which
every COMPLETED entry for the page has linkCount 0, no success notification
fires - while a non-temporary FAILED page is notified with no linkCount
condition: its first unnotified observation fires a failure notification. -/
theorem success_notification_requires_links (notified : List (Nat × PageStatus))
    (polls : List (List ViewPage)) (pid : Nat) :
    ((∀ ps ∈ polls, ∀ p ∈ ps, p.id = pid → p.status = .completed → p.linkCount = 0) →
       countSucc (runPolls notified polls).2 pid = 0) ∧
    (∀ pages p, p ∈ pages → p.id = pid → p.status = .failed → p.isTemporary = false →
       (pid, PageStatus.failed) ∉ notified →
       1 ≤ countFail (checkForCompletedJobs notified pages).2 pid) := by
  refine ⟨runPolls_succ_zero pid polls notified, ?_⟩
  intro pages p hp hid hst htmp hnin
  have m := fail_master pid pages notified
  have hmem := m.2 ⟨p, hp, hid, hst, htmp⟩
  rcases m.1.mp hmem with h | h
  · exact absurd h hnin
  · exact h

/-- Witness for C10: a COMPLETED page with zero links yields no success
notification; a FAILED page with zero links still yields a failure
notification. -/
theorem success_notification_requires_links_witness :
    countSucc (runPolls [] [[viewCompletedZero]]).2 1 = 0 ∧
    1 ≤ countFail (checkForCompletedJobs [] [viewFailed]).2 2 :=
  ⟨(success_notification_requires_links [] [[viewCompletedZero]] 1).1 (by decide),
   (success_notification_requires_links [] [] 2).2 [viewFailed] viewFailed
     (by decide) (by decide) (by decide) (by decide) (by decide)⟩

end ScraperApp
